import Mathlib

/-!
Verification development for the zault vault engine (post-quantum encrypted
content-addressed storage, C surface in src/include/zault.h).

The repository ships only the public C header; the engine behind it is
specified in spec.md. Accordingly, the data model and the operations below
are a shallow embedding: the constants, error codes and function signatures
are transcribed from the header, and the behaviour of each operation is
modelled from the specification (sections 3 to 6 of spec.md). The
cryptographic primitives (SHA3-256, ChaCha20-Poly1305, ML-DSA-65,
ML-KEM-768) are external collaborators, so they appear as a parameter
bundle constrained only by the interface laws of spec section 4.1; a small
concrete instance is provided to exhibit runs of the operations.
-/

set_option autoImplicit false
set_option maxRecDepth 100000

namespace Zault

/-- A byte, modelled as a natural number below 256. -/
abbrev Byte := Fin 256

/-- Byte strings. -/
abbrev Bytes := List Byte

/-- Truncate a natural number into a byte. -/
def byteOf (n : Nat) : Byte := ⟨n % 256, Nat.mod_lt _ (by decide)⟩

/-- Little-endian encoding of a natural number into 4 bytes (u32 LE). -/
def encodeU32LE (n : Nat) : Bytes :=
  [byteOf n, byteOf (n / 256), byteOf (n / 65536), byteOf (n / 16777216)]

/-- Little-endian encoding of a natural number into 8 bytes (u64 LE). -/
def encodeU64LE (n : Nat) : Bytes :=
  [byteOf n, byteOf (n / 2 ^ 8), byteOf (n / 2 ^ 16), byteOf (n / 2 ^ 24),
   byteOf (n / 2 ^ 32), byteOf (n / 2 ^ 40), byteOf (n / 2 ^ 48), byteOf (n / 2 ^ 56)]

/-- Two-complement little-endian encoding of an i64 into 8 bytes. -/
def encodeI64LE (i : Int) : Bytes :=
  encodeU64LE (i.emod (2 ^ 64)).toNat

/-- Little-endian decoding of a byte string into a natural number. -/
def leNat : Bytes → Nat
  | [] => 0
  | b :: t => b.val + 256 * leNat t

/-- Decode 8 little-endian bytes as a two-complement i64. -/
def decodeI64LE (bs : Bytes) : Int :=
  let n := leNat bs
  if n < 2 ^ 63 then (n : Int) else (n : Int) - 2 ^ 64

/- ===========================================================================
Error codes, transcribed from src/include/zault.h lines 54-71.
=========================================================================== -/

/-- Operation succeeded (header: ZAULT_OK). -/
def ZAULT_OK : Int := 0
/-- Invalid argument (header: ZAULT_ERR_INVALID_ARG). -/
def ZAULT_ERR_INVALID_ARG : Int := -1
/-- Memory allocation failed (header: ZAULT_ERR_ALLOC). -/
def ZAULT_ERR_ALLOC : Int := -2
/-- I/O error (header: ZAULT_ERR_IO). -/
def ZAULT_ERR_IO : Int := -3
/-- Cryptographic operation failed (header: ZAULT_ERR_CRYPTO). -/
def ZAULT_ERR_CRYPTO : Int := -4
/-- Invalid or corrupted data (header: ZAULT_ERR_INVALID_DATA). -/
def ZAULT_ERR_INVALID_DATA : Int := -5
/-- Resource not found (header: ZAULT_ERR_NOT_FOUND). -/
def ZAULT_ERR_NOT_FOUND : Int := -6
/-- Resource already exists (header: ZAULT_ERR_EXISTS). -/
def ZAULT_ERR_EXISTS : Int := -7
/-- Authentication or verification failed (header: ZAULT_ERR_AUTH_FAILED). -/
def ZAULT_ERR_AUTH_FAILED : Int := -8

/-- The failure cases of the public interface (all non-Ok error codes). -/
inductive ZErr where
  | invalidArg
  | alloc
  | io
  | crypto
  | invalidData
  | notFound
  | alreadyExists
  | authFailed
  deriving DecidableEq, Repr

/-- Numeric code of each failure case, per the header constants. -/
def errCode : ZErr → Int
  | .invalidArg => ZAULT_ERR_INVALID_ARG
  | .alloc => ZAULT_ERR_ALLOC
  | .io => ZAULT_ERR_IO
  | .crypto => ZAULT_ERR_CRYPTO
  | .invalidData => ZAULT_ERR_INVALID_DATA
  | .notFound => ZAULT_ERR_NOT_FOUND
  | .alreadyExists => ZAULT_ERR_EXISTS
  | .authFailed => ZAULT_ERR_AUTH_FAILED

/-- Numeric code returned by an operation: 0 on success, the error code
otherwise. -/
def retCode {α : Type} (r : Except ZErr α) : Int :=
  match r with
  | .ok _ => ZAULT_OK
  | .error e => errCode e

/-- The nine numeric codes of the public interface. -/
def allCodes : List Int := [0, -1, -2, -3, -4, -5, -6, -7, -8]

/- ===========================================================================
Primitive adapters (spec section 4.1): external collaborators, modelled as a
parameter bundle. Seeded keygen entry points are taken as pure functions of
the seed, matching the deterministic seeded keygen of spec section 4.2.
=========================================================================== -/

/-- The bundle of cryptographic primitives the engine consumes (spec 4.1):
SHA3-256, ChaCha20-Poly1305 seal and open, ML-DSA-65 sign and verify with
the public key derived from the secret key, ML-KEM-768 encapsulate and
decapsulate, and the seeded keygen entry points. Randomness consumed by the
engine (per-file keys, nonces, encapsulation coins) is passed explicitly to
each operation. -/
structure Prims where
  sha3 : Bytes → Bytes
  chachaSeal : Bytes → Bytes → Bytes → Bytes
  chachaOpen : Bytes → Bytes → Option Bytes
  mldsaSign : Bytes → Bytes → Bytes
  mldsaVerify : Bytes → Bytes → Bytes → Bool
  mldsaPkOfSk : Bytes → Bytes
  mlkemEncap : Bytes → Bytes → Bytes × Bytes
  mlkemDecap : Bytes → Bytes → Bytes
  mlkemPkOfSk : Bytes → Bytes
  mldsaKeygenSeeded : Bytes → Bytes × Bytes
  mlkemKeygenSeeded : Bytes → Bytes × Bytes

/-- AEAD functional correctness (spec 4.1): opening a sealed wire with the
sealing key recovers the plaintext, for any 12-byte nonce. -/
def AeadCorrect (P : Prims) : Prop :=
  ∀ k n pt, n.length = 12 → P.chachaOpen k (P.chachaSeal k n pt) = some pt

/-- AEAD wire overhead (spec: nonce 12, tag 16, ct of plaintext length). -/
def SealLen (P : Prims) : Prop :=
  ∀ k n pt, n.length = 12 → (P.chachaSeal k n pt).length = pt.length + 28

/-- AEAD wire layout (spec 4.1): the seal output is nonce, then a 16-byte
tag, then a ciphertext of the plaintext length. -/
def SealWire (P : Prims) : Prop :=
  ∀ k n pt, ∃ t c, t.length = 16 ∧ c.length = pt.length ∧
    P.chachaSeal k n pt = n ++ t ++ c

/-- Signature functional correctness: a signature made with a secret key
verifies under the matching public key. -/
def SigCorrect (P : Prims) : Prop :=
  ∀ sk m, P.mldsaVerify (P.mldsaPkOfSk sk) m (P.mldsaSign sk m) = true

/-- ML-DSA-65 signature length (header: ZAULT_SIGNATURE_LEN = 3309). -/
def SigLen (P : Prims) : Prop :=
  ∀ sk m, (P.mldsaSign sk m).length = 3309

/-- ML-DSA-65 public key length (header: ZAULT_MLDSA65_PK_LEN = 1952). -/
def DsaPkLen (P : Prims) : Prop :=
  ∀ sk, (P.mldsaPkOfSk sk).length = 1952

/-- KEM functional correctness: decapsulating the encapsulation made under
the matching public key yields the shared secret. -/
def KemCorrect (P : Prims) : Prop :=
  ∀ sk r, P.mlkemDecap sk (P.mlkemEncap (P.mlkemPkOfSk sk) r).1
    = (P.mlkemEncap (P.mlkemPkOfSk sk) r).2

/-- ML-KEM-768 ciphertext length (header: ZAULT_MLKEM768_CT_LEN = 1088). -/
def KemCtLen (P : Prims) : Prop :=
  ∀ pk r, ((P.mlkemEncap pk r).1).length = 1088

/-- SHA3-256 digest length (header: ZAULT_HASH_LEN = 32). -/
def Sha3Len (P : Prims) : Prop :=
  ∀ bs, (P.sha3 bs).length = 32

/- ===========================================================================
Block model (spec section 3): a block is a kind tag, a kind-specific body,
the signer public key, and a signature over kind, body and signer key.
=========================================================================== -/

/-- Body of a metadata block (spec section 3, canonical field order):
file name, plaintext size, wrapped per-file key, content hashes in assembly
order, creation time. -/
structure FileMeta where
  fileName : Bytes
  plaintextSize : Nat
  wrappedKey : Bytes
  chunkHashes : List Bytes
  createdAt : Int
  deriving DecidableEq, Repr

/-- Block body: an opaque AEAD wire for content blocks, a structured record
for metadata blocks. -/
inductive BlockBody where
  | content (wire : Bytes)
  | metadata (m : FileMeta)
  deriving DecidableEq, Repr

/-- A stored block (spec section 3). -/
structure Block where
  body : BlockBody
  signerPk : Bytes
  signature : Bytes
  deriving DecidableEq, Repr

/-- One-byte kind tag of a block (spec 4.3: 1-byte kind). -/
def kindByte : BlockBody → Byte
  | .content _ => 0
  | .metadata _ => 1

/-- Canonical byte encoding of a block body. For metadata the spec order is
name length, name, plaintext size, wrapped key, chunk count, the 32-byte
chunk hashes, creation time. -/
def encodeBody : BlockBody → Bytes
  | .content w => w
  | .metadata m =>
      encodeU32LE m.fileName.length ++ m.fileName ++
      encodeU64LE m.plaintextSize ++ m.wrappedKey ++
      encodeU32LE m.chunkHashes.length ++ m.chunkHashes.flatten ++
      encodeI64LE m.createdAt

/-- The message covered by a block signature (spec section 3:
kind, body, signer public key). -/
def sigMessage (b : BlockBody) (pk : Bytes) : Bytes :=
  kindByte b :: encodeBody b ++ pk

/-- Canonical encoding of a whole block (spec 4.3): kind, body length (u32
LE), body, signer public key, signature. The block address is the SHA3-256
of this encoding. -/
def canonicalEncode (blk : Block) : Bytes :=
  kindByte blk.body :: encodeU32LE (encodeBody blk.body).length ++
  encodeBody blk.body ++ blk.signerPk ++ blk.signature

/-- Build a block signed by the identity holding the given ML-DSA secret
key (spec section 3 invariants). -/
def mkBlock (P : Prims) (dsaSk : Bytes) (b : BlockBody) : Block :=
  let pk := P.mldsaPkOfSk dsaSk
  { body := b, signerPk := pk, signature := P.mldsaSign dsaSk (sigMessage b pk) }

/- ===========================================================================
Block store (spec 4.4): content-addressed map from 32-byte hashes to
blocks, modelled as an association list. Writes are append-only; put of an
identical block is idempotent and a colliding different block is rejected;
get verifies the block signature before returning.
=========================================================================== -/

/-- The block store: hash to block association list, most recent first. -/
abbrev Store := List (Bytes × Block)

/-- Raw lookup by hash. -/
def storeGet : Store → Bytes → Option Block
  | [], _ => none
  | (h, b) :: t, h₀ => if h = h₀ then some b else storeGet t h₀

/-- Modelled from the spec: store put (spec 4.4). Encodes the block,
hashes the canonical encoding, and writes; an existing identical block is
idempotent, an existing different block with the same hash fails with
InvalidData. Returns the address and the updated store. -/
def storePut (P : Prims) (st : Store) (blk : Block) : Except ZErr (Bytes × Store) :=
  let h := P.sha3 (canonicalEncode blk)
  match storeGet st h with
  | none => .ok (h, (h, blk) :: st)
  | some b => if b = blk then .ok (h, st) else .error .invalidData

/-- Modelled from the spec: store get (spec 4.4). Missing hash is NotFound;
a block whose signature does not verify is rejected with AuthFailed and
never returned. -/
def storeGetChecked (P : Prims) (st : Store) (h : Bytes) : Except ZErr Block :=
  match storeGet st h with
  | none => .error .notFound
  | some b =>
      if P.mldsaVerify b.signerPk (sigMessage b.body b.signerPk) b.signature
      then .ok b else .error .authFailed

/- ===========================================================================
File protocol (spec 4.5): chunking, add_file, get_file.
=========================================================================== -/

/-- Chunk size limit: 1 MiB (spec 4.5 step 3). -/
def chunkSize : Nat := 1048576

/-- Fuel-indexed chunk splitter; the fuel only serves the termination
argument and is adequate whenever it is at least the input length. -/
def chunksGo : Nat → Bytes → List Bytes
  | _, [] => []
  | 0, rest => [rest]
  | fuel + 1, x :: xs => (x :: xs).take chunkSize :: chunksGo fuel ((x :: xs).drop chunkSize)

/-- Split a plaintext into chunks of at most 1 MiB (spec 4.5 step 3). -/
def chunkSplit (l : Bytes) : List Bytes := chunksGo l.length l

/-- Number of chunks of a plaintext of the given length: the ceiling of
length over 1 MiB. -/
def numChunks (n : Nat) : Nat := (n + chunkSize - 1) / chunkSize

/-- The slash byte; file names containing it are rejected (spec 4.5 edge
policies: names with path separators are rejected before storage). -/
def slashByte : Byte := 47

/-- Modelled from the spec: seal each chunk under the per-file key with its
own nonce, wrap it in a signed content block and put it (spec 4.5 step 3).
Returns the extended store and the recorded hashes in order. -/
def putChunks (P : Prims) (dsaSk pfk : Bytes) (nonces : Nat → Bytes) :
    Nat → List Bytes → Store → Except ZErr (Store × List Bytes)
  | _, [], st => .ok (st, [])
  | i, c :: cs, st =>
    let blk := mkBlock P dsaSk (.content (P.chachaSeal pfk (nonces i) c))
    match storePut P st blk with
    | .error e => .error e
    | .ok (h, st₁) =>
      match putChunks P dsaSk pfk nonces (i + 1) cs st₁ with
      | .error e => .error e
      | .ok (st₂, hs) => .ok (st₂, h :: hs)

/-- The vault (spec section 3): identity secret keys, the derived master
key, and the block store. The filesystem path is immaterial to the model. -/
structure Vault where
  identityDsaSk : Bytes
  identityKemSk : Bytes
  masterKey : Bytes
  store : Store
  deriving DecidableEq, Repr

/-- Modelled from the spec: add_file (spec 4.5). The file content and name
replace the path read; the per-file key, the chunk nonces and the wrap
nonce stand for the csprng draws. Splits the plaintext into chunks of at
most 1 MiB, seals and stores each as a signed content block, wraps the
per-file key under the master key, builds, signs and stores the metadata
block, and returns its hash with the updated vault. -/
def add_file (P : Prims) (v : Vault) (pfk : Bytes) (nonces : Nat → Bytes)
    (wrapNonce : Bytes) (fileName : Bytes) (createdAt : Int) (content : Bytes) :
    Except ZErr (Bytes × Vault) :=
  if fileName.contains slashByte then .error .invalidArg else
  match putChunks P v.identityDsaSk pfk nonces 0 (chunkSplit content) v.store with
  | .error e => .error e
  | .ok (st₁, hs) =>
    let wrapped := P.chachaSeal v.masterKey wrapNonce pfk
    let meta : FileMeta :=
      { fileName := fileName, plaintextSize := content.length,
        wrappedKey := wrapped, chunkHashes := hs, createdAt := createdAt }
    match storePut P st₁ (mkBlock P v.identityDsaSk (.metadata meta)) with
    | .error e => .error e
    | .ok (hm, st₂) => .ok (hm, { v with store := st₂ })

/-- Modelled from the spec: fetch the content blocks in order, require kind
Content, open each with the per-file key (spec 4.5 get_file step 3). -/
def getChunks (P : Prims) (st : Store) (pfk : Bytes) :
    List Bytes → Except ZErr (List Bytes)
  | [] => .ok []
  | h :: hs =>
    match storeGetChecked P st h with
    | .error e => .error e
    | .ok blk =>
      match blk.body with
      | .metadata _ => .error .invalidData
      | .content wire =>
        match P.chachaOpen pfk wire with
        | none => .error .authFailed
        | some c =>
          match getChunks P st pfk hs with
          | .error e => .error e
          | .ok cs => .ok (c :: cs)

/-- Modelled from the spec: get_file (spec 4.5). Fetches and verifies the
metadata block, unwraps the per-file key with the master key, fetches and
decrypts the content blocks in order, checks the total length against the
recorded plaintext size, and returns the assembled bytes (the model
returns the bytes rather than writing an output path). -/
def get_file (P : Prims) (v : Vault) (h : Bytes) : Except ZErr Bytes :=
  match storeGetChecked P v.store h with
  | .error e => .error e
  | .ok blk =>
    match blk.body with
    | .content _ => .error .invalidData
    | .metadata m =>
      match P.chachaOpen v.masterKey m.wrappedKey with
      | none => .error .authFailed
      | some pfk =>
        match getChunks P v.store pfk m.chunkHashes with
        | .error e => .error e
        | .ok cs =>
          let out := cs.flatten
          if out.length = m.plaintextSize then .ok out else .error .invalidData

/- ===========================================================================
Share protocol (spec 4.6 and the ShareToken wire layout of spec section 3).
=========================================================================== -/

/-- Share token magic: the four ASCII bytes of ZST1. -/
def zstMagic : Bytes := [90, 83, 84, 49]

/-- Parsed share token fields, in wire order (spec section 3). -/
structure ShareTok where
  expiresAt : Int
  fileHash : Bytes
  kemCt : Bytes
  aeadNonce : Bytes
  aeadTag : Bytes
  aeadCt : Bytes
  signerPk : Bytes
  sig : Bytes
  deriving DecidableEq, Repr

/-- The signed preamble of a share token: every field before the signer
public key (spec 4.6 create_share step 4). -/
def sharePreamble (t : ShareTok) : Bytes :=
  zstMagic ++ encodeI64LE t.expiresAt ++ t.fileHash ++ t.kemCt ++
  t.aeadNonce ++ t.aeadTag ++ t.aeadCt

/-- Modelled from the spec: parse the fixed-size share token fields and
check the magic (spec 4.6 redeem_share step 1). Offsets follow the wire
layout: magic 4, expiry 8, file hash 32, KEM ciphertext 1088, nonce 12,
tag 16, AEAD ciphertext 32, signer key 1952, signature 3309; total 6453. -/
def parseShareToken (tok : Bytes) : Option ShareTok :=
  if tok.length = 6453 ∧ tok.take 4 = zstMagic then
    some
      { expiresAt := decodeI64LE ((tok.drop 4).take 8)
        fileHash := (tok.drop 12).take 32
        kemCt := (tok.drop 44).take 1088
        aeadNonce := (tok.drop 1132).take 12
        aeadTag := (tok.drop 1144).take 16
        aeadCt := (tok.drop 1160).take 32
        signerPk := (tok.drop 1192).take 1952
        sig := tok.drop 3144 }
  else none

/-- Modelled from the spec: unwrap the per-file key of the file named by
the hash (spec 4.6 create_share step 1): load the metadata block, open its
wrapped key with the master key, and validate the 32-byte key length at
the adapter boundary (spec 4.1). -/
def unwrapFileKey (P : Prims) (v : Vault) (fileHash : Bytes) : Except ZErr Bytes :=
  match storeGetChecked P v.store fileHash with
  | .error e => .error e
  | .ok blk =>
    match blk.body with
    | .content _ => .error .invalidData
    | .metadata m =>
      match P.chachaOpen v.masterKey m.wrappedKey with
      | none => .error .authFailed
      | some pfk => if pfk.length = 32 then .ok pfk else .error .invalidData

/-- Modelled from the spec: create_share (spec 4.6). Validates the input
lengths (header contract: file hash 32 bytes, recipient KEM key 1184
bytes, and the lengths produced by the primitive adapters, which spec 4.1
requires validating at the boundary), encapsulates to the recipient, seals
the per-file key under the shared secret, and signs the preamble. The
encapsulation coin and the AEAD nonce stand for the csprng draws. -/
def create_share (P : Prims) (v : Vault) (fileHash recipientKemPk : Bytes)
    (expiresAt : Int) (encapRand shareNonce : Bytes) : Except ZErr Bytes :=
  if fileHash.length ≠ 32 then .error .invalidArg else
  if recipientKemPk.length ≠ 1184 then .error .invalidArg else
  if shareNonce.length ≠ 12 then .error .invalidArg else
  match unwrapFileKey P v fileHash with
  | .error e => .error e
  | .ok pfk =>
    let ct := (P.mlkemEncap recipientKemPk encapRand).1
    let ss := (P.mlkemEncap recipientKemPk encapRand).2
    if ct.length ≠ 1088 then .error .crypto else
    let aead := P.chachaSeal ss shareNonce pfk
    if aead.length ≠ 60 then .error .crypto else
    let pk := P.mldsaPkOfSk v.identityDsaSk
    if pk.length ≠ 1952 then .error .crypto else
    let preamble := zstMagic ++ encodeI64LE expiresAt ++ fileHash ++ ct ++ aead
    let sg := P.mldsaSign v.identityDsaSk preamble
    if sg.length ≠ 3309 then .error .crypto else
    .ok (preamble ++ pk ++ sg)

/-- The expiry check of redemption (spec 4.6 redeem_share step 3):
redemption passes the check exactly when now is at most expires_at. -/
def expiryOk (now : Int) (t : ShareTok) : Bool := decide (now ≤ t.expiresAt)

/-- True when the token parses and its expiry lies strictly before now. -/
def tokenExpired (now : Int) (tok : Bytes) : Bool :=
  match parseShareToken tok with
  | some t => decide (t.expiresAt < now)
  | none => false

/-- Modelled from the spec: redeem_share (spec 4.6). Parses the token,
verifies the embedded signature, checks expiry, decapsulates and opens the
per-file key. The function passes the vault through so that failure paths
observably leave the store unchanged. Spec 4.6 step 6 (re-wrap and rewrite
the metadata block only if the file hash is absent) is an open question of
the spec (section 9); with the metadata block absent there is nothing to
rewrite, so the model leaves the store unchanged on success as well. -/
def redeem_share (P : Prims) (v : Vault) (now : Int) (tok : Bytes) :
    Except ZErr Bytes × Vault :=
  match parseShareToken tok with
  | none => (.error .invalidData, v)
  | some t =>
    if P.mldsaVerify t.signerPk (sharePreamble t) t.sig then
      if expiryOk now t then
        let ss := P.mlkemDecap v.identityKemSk t.kemCt
        match P.chachaOpen ss (t.aeadNonce ++ t.aeadTag ++ t.aeadCt) with
        | none => (.error .authFailed, v)
        | some _ => (.ok t.fileHash, v)
      else (.error .authFailed, v)
    else (.error .authFailed, v)

/- ===========================================================================
Identity (spec 4.2) and public identity serialization (header lines
536-588).
=========================================================================== -/

/-- An identity: ML-DSA-65 and ML-KEM-768 keypairs (spec section 3). -/
structure Identity where
  mldsaPk : Bytes
  mldsaSk : Bytes
  mlkemPk : Bytes
  mlkemSk : Bytes
  deriving DecidableEq, Repr

/-- ASCII bytes of the domain separation tag zault-id-dsa (spec 4.2). -/
def dsaDomain : Bytes := [122, 97, 117, 108, 116, 45, 105, 100, 45, 100, 115, 97]

/-- ASCII bytes of the domain separation tag zault-id-kem (spec 4.2). -/
def kemDomain : Bytes := [122, 97, 117, 108, 116, 45, 105, 100, 45, 107, 101, 109]

/-- Modelled from the spec: from_seed (spec 4.2, header line 170). Requires
a 32-byte seed, expands it through domain-separated SHA3-256 and feeds the
two derived seeds to the seeded keygen entry points. The ambient argument
stands for the process CSPRNG available to the other constructors; it is
not consumed, which is exactly the determinism being claimed. -/
def identity_from_seed (P : Prims) (_ambient : Nat → Bytes) (seed : Bytes) :
    Option Identity :=
  if seed.length = 32 then
    let d := P.mldsaKeygenSeeded (P.sha3 (dsaDomain ++ seed))
    let k := P.mlkemKeygenSeeded (P.sha3 (kemDomain ++ seed))
    some { mldsaPk := d.1, mldsaSk := d.2, mlkemPk := k.1, mlkemSk := k.2 }
  else none

/-- Serialize the public half of an identity: DSA public key then KEM
public key, 3136 bytes (header line 546, spec 4.2). -/
def serialize_public (id : Identity) : Bytes := id.mldsaPk ++ id.mlkemPk

/-- Modelled from the spec: extract the ML-KEM-768 public key from a
serialized public identity (header line 564): validate the exact 3136-byte
length and slice. -/
def parse_public_identity_kem_pk (serialized : Bytes) : Except ZErr Bytes :=
  if serialized.length = 3136 then .ok (serialized.drop 1952)
  else .error .invalidArg

/-- Modelled from the spec: extract the ML-DSA-65 public key from a
serialized public identity (header line 583): validate the exact 3136-byte
length and slice. -/
def parse_public_identity_dsa_pk (serialized : Bytes) : Except ZErr Bytes :=
  if serialized.length = 3136 then .ok (serialized.take 1952)
  else .error .invalidArg

/- ===========================================================================
Message encryption (header lines 440-485): ML-KEM-768 + ChaCha20-Poly1305,
output format KEM ciphertext (1088), nonce (12), tag (16), sealed message.
=========================================================================== -/

/-- Modelled from the spec: encrypt_message (header line 456). The sender
identity may be absent (anonymous); the documented output format carries
no signature field, so the sender does not influence the wire bytes.
Validates the recipient key length (header contract) and the KEM
ciphertext length at the adapter boundary. -/
def encrypt_message (P : Prims) (_sender : Option Identity)
    (recipientKemPk : Bytes) (plaintext : Bytes) (encapRand nonce : Bytes) :
    Except ZErr Bytes :=
  if recipientKemPk.length ≠ 1184 then .error .invalidArg else
  if ((P.mlkemEncap recipientKemPk encapRand).1).length ≠ 1088 then .error .crypto else
  .ok ((P.mlkemEncap recipientKemPk encapRand).1 ++
    P.chachaSeal (P.mlkemEncap recipientKemPk encapRand).2 nonce plaintext)

/-- Modelled from the spec: decrypt_message (header line 478). Splits off
the 1088-byte KEM ciphertext, decapsulates with the recipient KEM secret
key, and opens the remainder; tampering surfaces as AuthFailed. -/
def decrypt_message (P : Prims) (recipient : Identity) (ciphertext : Bytes) :
    Except ZErr Bytes :=
  if ciphertext.length < 1116 then .error .invalidArg else
  match P.chachaOpen (P.mlkemDecap recipient.mlkemSk (ciphertext.take 1088))
      (ciphertext.drop 1088) with
  | none => .error .authFailed
  | some pt => .ok pt

/- ===========================================================================
Handle lifecycle (header lines 171-177 and 249-255): destroy with a NULL
handle is documented as a safe no-op.
=========================================================================== -/

/-- The world of live handles an embedding process holds. -/
structure CWorld where
  identities : List Identity
  vaults : List Vault
  deriving Repr

/-- Modelled from the spec: zault_identity_destroy (header line 177). A
NULL handle is a safe no-op; a live handle is released (zeroization is a
memory effect outside the model, represented by removal of the handle).
Totality of the function models absence of faults. -/
def zault_identity_destroy : Option Identity → CWorld → CWorld
  | none, w => w
  | some i, w => { w with identities := w.identities.erase i }

/-- Modelled from the spec: zault_vault_destroy (header line 255). A NULL
handle is a safe no-op; a live handle is released. -/
def zault_vault_destroy : Option Vault → CWorld → CWorld
  | none, w => w
  | some v, w => { w with vaults := w.vaults.erase v }

/- ===========================================================================
The public interface surface, transcribed from src/include/zault.h: for
each exported function, its caller-allocated output-buffer parameters and
its length-out parameters (parameters through which an actual output
length is returned).
=========================================================================== -/

/-- Shape of one C interface function: its name, its output-buffer
parameters, and its length-out parameters. -/
structure CFun where
  name : String
  outBufferParams : List String
  lenOutParams : List String
  deriving DecidableEq, Repr

/-- The public interface of zault.h, one entry per exported function, with
the output-buffer and length-out parameters read off each declaration. -/
def zaultApi : List CFun :=
  [ ⟨"zault_version", [], []⟩
  , ⟨"zault_identity_generate", [], []⟩
  , ⟨"zault_identity_from_seed", [], []⟩
  , ⟨"zault_identity_destroy", [], []⟩
  , ⟨"zault_identity_get_public_key", ["pk_out"], []⟩
  , ⟨"zault_identity_get_kem_public_key", ["pk_out"], []⟩
  , ⟨"zault_identity_save", [], []⟩
  , ⟨"zault_identity_load", [], []⟩
  , ⟨"zault_vault_init", [], []⟩
  , ⟨"zault_vault_destroy", [], []⟩
  , ⟨"zault_vault_add_file", ["hash_out"], []⟩
  , ⟨"zault_vault_get_file", [], []⟩
  , ⟨"zault_vault_get_kem_public_key", ["pk_out"], []⟩
  , ⟨"zault_vault_create_share", ["token_out"], ["token_len_out"]⟩
  , ⟨"zault_vault_redeem_share", ["hash_out"], []⟩
  , ⟨"zault_vault_export_blocks", [], []⟩
  , ⟨"zault_vault_import_blocks", [], []⟩
  , ⟨"zault_sha3_256", ["hash_out"], []⟩
  , ⟨"zault_random_bytes", ["out"], []⟩
  , ⟨"zault_encrypt_message", ["ciphertext_out"], ["ciphertext_len_out"]⟩
  , ⟨"zault_decrypt_message", ["plaintext_out"], ["plaintext_len_out"]⟩
  , ⟨"zault_sign", ["signature_out"], []⟩
  , ⟨"zault_verify", [], []⟩
  , ⟨"zault_identity_serialize_public", ["out"], []⟩
  , ⟨"zault_parse_public_identity_kem_pk", ["kem_pk_out"], []⟩
  , ⟨"zault_parse_public_identity_dsa_pk", ["dsa_pk_out"], []⟩
  , ⟨"zault_chacha20_encrypt", ["ciphertext_out"], ["ciphertext_len_out"]⟩
  , ⟨"zault_chacha20_decrypt", ["plaintext_out"], ["plaintext_len_out"]⟩
  , ⟨"zault_error_string", [], []⟩ ]

/-- The functions of the interface that carry a length-out parameter and
can therefore report a required size through it. -/
def queryFillNames : List String :=
  [ "zault_vault_create_share", "zault_encrypt_message",
    "zault_decrypt_message", "zault_chacha20_encrypt",
    "zault_chacha20_decrypt" ]

/- ===========================================================================
A concrete primitive instance. The real primitives live outside the
repository (spec section 1 treats them as external collaborators specified
only through their interfaces), so the instance below is a minimal
executable inhabitant of exactly those interface laws, used to run the
modelled operations on concrete inputs. It makes no security claim.
=========================================================================== -/

/-- Right-pad with zero bytes and truncate to exactly n bytes. -/
def padTo (n : Nat) (bs : Bytes) : Bytes := (bs ++ List.replicate n 0).take n

/-- A linear congruential step used by the concrete instance. -/
def prngStep (x : Nat) : Nat := (x * 1103515245 + 12345) % 2147483648

/-- Mix one byte into a running Nat accumulator. -/
def mixByte (a : Nat) (b : Byte) : Nat := (a * 131 + b.val + 17) % 4294967291

/-- Fold a byte string into a Nat seed. -/
def digestNat (bs : Bytes) : Nat := bs.foldl mixByte 7

/-- Expand a Nat seed into k pseudorandom bytes. -/
def digestBytes : Nat → Nat → Bytes
  | 0, _ => []
  | k + 1, x => byteOf (prngStep x / 65536) :: digestBytes k (prngStep x)

/-- 32-byte digest of a byte string (stands in for SHA3-256). -/
def toyHash (bs : Bytes) : Bytes := digestBytes 32 (digestNat bs)

/-- The byte-wise additive mask of the toy AEAD for a key and nonce. -/
def toyMask (k n : Bytes) : Byte := byteOf (digestNat (k ++ n))

/-- Toy AEAD seal: nonce, then a 16-byte tag over key, nonce and
plaintext, then the plaintext shifted by a key- and nonce-derived mask. -/
def toySeal (k n pt : Bytes) : Bytes :=
  n ++ digestBytes 16 (digestNat (k ++ n ++ pt)) ++ pt.map (fun b => b + toyMask k n)

/-- Toy AEAD open: split the wire, unshift, recompute and compare the tag. -/
def toyOpen (k w : Bytes) : Option Bytes :=
  if w.length < 28 then none else
  let n := w.take 12
  let t := (w.drop 12).take 16
  let c := w.drop 28
  let pt := c.map (fun b => b - toyMask k n)
  if t = digestBytes 16 (digestNat (k ++ n ++ pt)) then some pt else none

/-- The concrete primitive bundle. Signatures and KEM shared secrets are
functionally lawful (they satisfy the interface laws of spec 4.1) while
carrying no cryptographic strength. -/
def toyPrims : Prims :=
  { sha3 := toyHash
    chachaSeal := toySeal
    chachaOpen := toyOpen
    mldsaSign := fun _ m => padTo 3309 (digestBytes 32 (digestNat m))
    mldsaVerify := fun _ m s => decide (s = padTo 3309 (digestBytes 32 (digestNat m)))
    mldsaPkOfSk := fun sk => padTo 1952 sk
    mlkemEncap := fun pk r =>
      (padTo 1088 (r ++ pk), digestBytes 32 (digestNat (padTo 1088 (r ++ pk))))
    mlkemDecap := fun _ ct => digestBytes 32 (digestNat ct)
    mlkemPkOfSk := fun sk => padTo 1184 sk
    mldsaKeygenSeeded := fun s => (padTo 1952 s, s)
    mlkemKeygenSeeded := fun s => (padTo 1184 s, s) }

/-- A second concrete primitive bundle with short keys and signatures. It
satisfies the functional laws (not the length laws), which keeps concrete
runs of the file protocol small enough to evaluate inside proofs. -/
def miniPrims : Prims :=
  { sha3 := toyHash
    chachaSeal := toySeal
    chachaOpen := toyOpen
    mldsaSign := fun sk m => digestBytes 8 (digestNat (sk ++ m))
    mldsaVerify := fun pk m s => decide (s = digestBytes 8 (digestNat (pk ++ m)))
    mldsaPkOfSk := fun sk => sk
    mlkemEncap := fun pk r => (r ++ pk, toyHash (r ++ pk))
    mlkemDecap := fun _ ct => toyHash ct
    mlkemPkOfSk := fun sk => sk
    mldsaKeygenSeeded := fun s => (s, s)
    mlkemKeygenSeeded := fun s => (s, s) }

/- Concrete inputs used to run the modelled operations inside proofs. -/

/-- A fresh vault with a trivial identity and empty store. -/
def wVault : Vault :=
  { identityDsaSk := [1], identityKemSk := [2], masterKey := [3], store := [] }

/-- A two-byte file content, the ASCII bytes of hi. -/
def wContent : Bytes := [104, 105]

/-- A concrete 32-byte per-file key. -/
def wKey32 : Bytes := List.replicate 32 9

/-- A concrete 12-byte nonce. -/
def wNonce12 : Bytes := List.replicate 12 0

/-- A constant nonce stream for concrete runs. -/
def wNonces : Nat → Bytes := fun _ => wNonce12

/-- A one-byte file name (no path separator). -/
def wName : Bytes := [102]

/-- A concrete share token image: correct magic, expiry 10, all further
bytes zero. It parses, and its signature is garbage, which is irrelevant
to an expired redemption. -/
def wExpiredToken : Bytes := zstMagic ++ encodeI64LE 10 ++ List.replicate 6441 0

/-- The parse of wExpiredToken, written field by field. -/
def wExpiredTok : ShareTok :=
  { expiresAt := decodeI64LE ((wExpiredToken.drop 4).take 8)
    fileHash := (wExpiredToken.drop 12).take 32
    kemCt := (wExpiredToken.drop 44).take 1088
    aeadNonce := (wExpiredToken.drop 1132).take 12
    aeadTag := (wExpiredToken.drop 1144).take 16
    aeadCt := (wExpiredToken.drop 1160).take 32
    signerPk := (wExpiredToken.drop 1192).take 1952
    sig := wExpiredToken.drop 3144 }

/-- A concrete metadata record whose wrapped key opens under the master
key of wShareVault to wKey32. -/
def wMeta : FileMeta :=
  { fileName := wName, plaintextSize := 2,
    wrappedKey := toySeal [3] wNonce12 wKey32,
    chunkHashes := [], createdAt := 0 }

/-- The signed block carrying wMeta, produced by the toy primitives. -/
def wMetaBlock : Block := mkBlock toyPrims [1] (.metadata wMeta)

/-- A concrete 32-byte file hash under which wMetaBlock is stored. -/
def wFh : Bytes := List.replicate 32 3

/-- A vault whose store holds wMetaBlock at wFh. -/
def wShareVault : Vault :=
  { identityDsaSk := [1], identityKemSk := [2], masterKey := [3],
    store := [(wFh, wMetaBlock)] }

/-- A concrete recipient KEM public key of the correct length. -/
def wRecipPk : Bytes := List.replicate 1184 1

/-- A concrete recipient identity whose KEM keypair matches under the toy
primitives. -/
def wRecipient : Identity :=
  { mldsaPk := [], mldsaSk := [], mlkemPk := padTo 1184 [2], mlkemSk := [2] }

/-- An identity with full-length public keys, for the serialization
round trip. -/
def wSerIdentity : Identity :=
  { mldsaPk := List.replicate 1952 4, mldsaSk := [],
    mlkemPk := List.replicate 1184 5, mlkemSk := [] }

/-- The metadata record stored at a hash, when the hash resolves to a
metadata block. -/
def metaAt (v : Vault) (h : Bytes) : Option FileMeta :=
  match storeGet v.store h with
  | some blk =>
    match blk.body with
    | .metadata m => some m
    | .content _ => none
  | none => none

/-- Adding a file and immediately retrieving it through the returned
metadata hash (the round-trip composition of spec property 1). -/
def addThenGet (P : Prims) (v : Vault) (pfk : Bytes) (nonces : Nat → Bytes)
    (wrapNonce : Bytes) (fileName : Bytes) (createdAt : Int) (content : Bytes) :
    Except ZErr Bytes :=
  match add_file P v pfk nonces wrapNonce fileName createdAt content with
  | .error e => .error e
  | .ok (h, v₁) => get_file P v₁ h

theorem digestBytes_length (k x : Nat) : (digestBytes k x).length = k := by
  induction k generalizing x with
  | zero => rfl
  | succ k ih => simp [digestBytes, ih]

theorem padTo_length (n : Nat) (bs : Bytes) : (padTo n bs).length = n := by
  simp [padTo]

theorem toySeal_length (k n pt : Bytes) (hn : n.length = 12) :
    (toySeal k n pt).length = pt.length + 28 := by
  simp [toySeal, digestBytes_length, hn]; omega

theorem toyOpen_toySeal (k n pt : Bytes) (hn : n.length = 12) :
    toyOpen k (toySeal k n pt) = some pt := by
  have hTlen : (digestBytes 16 (digestNat (k ++ n ++ pt))).length = 16 :=
    digestBytes_length _ _
  have h12 : (toySeal k n pt).take 12 = n := by
    rw [toySeal, List.append_assoc]; exact List.take_left' hn
  have hd12 : (toySeal k n pt).drop 12
      = digestBytes 16 (digestNat (k ++ n ++ pt)) ++
        pt.map (fun b => b + toyMask k n) := by
    rw [toySeal, List.append_assoc]; exact List.drop_left' hn
  have h16 : ((toySeal k n pt).drop 12).take 16
      = digestBytes 16 (digestNat (k ++ n ++ pt)) := by
    rw [hd12]; exact List.take_left' hTlen
  have h28 : (toySeal k n pt).drop 28 = pt.map (fun b => b + toyMask k n) := by
    rw [toySeal]; exact List.drop_left' (by simp [hn, digestBytes_length])
  have hmapinv : (pt.map (fun b => b + toyMask k n)).map
      (fun b => b - toyMask k n) = pt := by
    rw [List.map_map]
    have hcomp : ((fun b : Byte => b - toyMask k n) ∘
        fun b : Byte => b + toyMask k n) = id := by
      funext b; simp
    rw [hcomp, List.map_id]
  simp only [toyOpen, toySeal_length k n pt hn, h12, h16, h28, hmapinv]
  simp

theorem toyPrims_aead : AeadCorrect toyPrims :=
  fun k n pt hn => toyOpen_toySeal k n pt hn

theorem miniPrims_aead : AeadCorrect miniPrims :=
  fun k n pt hn => toyOpen_toySeal k n pt hn

theorem toyPrims_sealLen : SealLen toyPrims := by
  intro k n pt hn
  exact toySeal_length k n pt hn

theorem toyPrims_sig : SigCorrect toyPrims := by
  intro sk m; simp [toyPrims]

theorem miniPrims_sig : SigCorrect miniPrims := by
  intro sk m; simp [miniPrims]

theorem miniPrims_sha3Len : Sha3Len miniPrims := by
  intro bs; simp [miniPrims, toyHash, digestBytes_length]

theorem toyPrims_sigLen : SigLen toyPrims := by
  intro sk m; simp [toyPrims, padTo_length]

theorem toyPrims_dsaPkLen : DsaPkLen toyPrims := by
  intro sk; simp [toyPrims, padTo_length]

theorem toyPrims_kem : KemCorrect toyPrims := by
  intro sk r; rfl

theorem toyPrims_kemCtLen : KemCtLen toyPrims := by
  intro pk r; simp [toyPrims, padTo_length]

theorem toyPrims_sha3Len : Sha3Len toyPrims := by
  intro bs; simp [toyPrims, toyHash, digestBytes_length]

theorem toyPrims_sealWire : SealWire toyPrims := by
  intro k n pt
  exact ⟨digestBytes 16 (digestNat (k ++ n ++ pt)),
    pt.map (fun b => b + toyMask k n),
    digestBytes_length _ _, by simp, rfl⟩

/- Chunking lemmas. -/

theorem chunksGo_flatten : ∀ (fuel : Nat) (l : Bytes), (chunksGo fuel l).flatten = l := by
  intro fuel
  induction fuel with
  | zero => intro l; cases l <;> simp [chunksGo]
  | succ fuel ih =>
    intro l
    cases l with
    | nil => simp [chunksGo]
    | cons x xs => simp [chunksGo, ih]

theorem chunkSplit_flatten (l : Bytes) : (chunkSplit l).flatten = l :=
  chunksGo_flatten l.length l

theorem numChunks_zero : numChunks 0 = 0 := by
  norm_num [numChunks, chunkSize]

theorem numChunks_step (n : Nat) (h : 1 ≤ n) :
    numChunks n = 1 + numChunks (n - chunkSize) := by
  unfold numChunks chunkSize
  rcases le_or_lt n 1048576 with hle | hgt
  · have h1 : (n + 1048576 - 1) / 1048576 = 1 :=
      Nat.div_eq_of_lt_le (by omega) (by omega)
    have h2 : n - 1048576 = 0 := by omega
    rw [h1, h2]
  · have hsplit : n + 1048576 - 1 = (n - 1048576 + 1048576 - 1) + 1048576 := by
      omega
    rw [hsplit, Nat.add_div_right _ (by norm_num)]
    omega

theorem chunksGo_count : ∀ (fuel : Nat) (l : Bytes), l.length ≤ fuel →
    (chunksGo fuel l).length = numChunks l.length := by
  intro fuel
  induction fuel with
  | zero =>
    intro l hl
    cases l with
    | nil => simp [chunksGo, numChunks_zero]
    | cons x xs => simp at hl
  | succ fuel ih =>
    intro l hl
    cases l with
    | nil => simp [chunksGo, numChunks_zero]
    | cons x xs =>
      have hdl : ((x :: xs).drop chunkSize).length ≤ fuel := by
        simp only [List.length_drop, List.length_cons, chunkSize]
        simp only [List.length_cons] at hl
        omega
      have h1 : (chunksGo (fuel + 1) (x :: xs)).length
          = (chunksGo fuel ((x :: xs).drop chunkSize)).length + 1 := by
        simp [chunksGo]
      rw [h1, ih _ hdl, List.length_drop, List.length_cons]
      rw [numChunks_step (xs.length + 1) (by omega)]
      omega

theorem chunkSplit_count (l : Bytes) : (chunkSplit l).length = numChunks l.length :=
  chunksGo_count l.length l le_rfl

theorem chunksGo_sizes : ∀ (fuel : Nat) (l : Bytes), l.length ≤ fuel →
    ∀ c ∈ chunksGo fuel l, c.length ≤ chunkSize := by
  intro fuel
  induction fuel with
  | zero =>
    intro l hl c hc
    cases l with
    | nil => simp [chunksGo] at hc
    | cons x xs => simp at hl
  | succ fuel ih =>
    intro l hl c hc
    cases l with
    | nil => simp [chunksGo] at hc
    | cons x xs =>
      simp only [chunksGo, List.mem_cons] at hc
      rcases hc with rfl | hc
      · simp [List.length_take]
      · have hdl : ((x :: xs).drop chunkSize).length ≤ fuel := by
          simp only [List.length_drop, List.length_cons, chunkSize]
          simp only [List.length_cons] at hl
          omega
        exact ih _ hdl c hc

theorem chunkSplit_sizes (l : Bytes) : ∀ c ∈ chunkSplit l, c.length ≤ chunkSize :=
  chunksGo_sizes l.length l le_rfl

/- Store lemmas. -/

theorem storePut_ok (P : Prims) (st : Store) (blk : Block) (h : Bytes) (st' : Store)
    (hput : storePut P st blk = .ok (h, st')) :
    h = P.sha3 (canonicalEncode blk) ∧ storeGet st' h = some blk ∧
      (∀ h₀ b₀, storeGet st h₀ = some b₀ → storeGet st' h₀ = some b₀) ∧
      (st' = st ∨ st' = (h, blk) :: st) := by
  unfold storePut at hput
  cases hLook : storeGet st (P.sha3 (canonicalEncode blk)) with
  | none =>
    simp only [hLook, Except.ok.injEq, Prod.mk.injEq] at hput
    obtain ⟨rfl, rfl⟩ := hput
    refine ⟨rfl, by simp [storeGet], ?_, Or.inr rfl⟩
    intro h₀ b₀ hb
    simp only [storeGet]
    by_cases he : P.sha3 (canonicalEncode blk) = h₀
    · rw [← he] at hb; rw [hb] at hLook; cases hLook
    · simp [he, hb]
  | some b =>
    by_cases hb : b = blk
    · subst hb
      simp only [hLook, if_pos rfl, Except.ok.injEq, Prod.mk.injEq] at hput
      obtain ⟨rfl, rfl⟩ := hput
      exact ⟨rfl, hLook, fun _ _ hx => hx, Or.inl rfl⟩
    · simp only [hLook, if_neg hb] at hput
      cases hput

theorem verify_mkBlock (P : Prims) (hS : SigCorrect P) (sk : Bytes) (b : BlockBody) :
    P.mldsaVerify (mkBlock P sk b).signerPk
      (sigMessage (mkBlock P sk b).body (mkBlock P sk b).signerPk)
      (mkBlock P sk b).signature = true := by
  simp only [mkBlock]
  exact hS sk _

theorem storeGetChecked_mkBlock (P : Prims) (hS : SigCorrect P) (st : Store)
    (h sk : Bytes) (b : BlockBody)
    (hlook : storeGet st h = some (mkBlock P sk b)) :
    storeGetChecked P st h = .ok (mkBlock P sk b) := by
  unfold storeGetChecked
  rw [hlook]
  simp [verify_mkBlock P hS sk b]

theorem putChunks_ok (P : Prims) (sk pfk : Bytes) (nonces : Nat → Bytes)
    (hn : ∀ j, (nonces j).length = 12) :
    ∀ (cs : List Bytes) (i : Nat) (st st' : Store) (hs : List Bytes),
    putChunks P sk pfk nonces i cs st = .ok (st', hs) →
    (∀ h₀ b₀, storeGet st h₀ = some b₀ → storeGet st' h₀ = some b₀) ∧
      List.Forall₂ (fun h c => ∃ n, n.length = 12 ∧
        storeGet st' h = some (mkBlock P sk (.content (P.chachaSeal pfk n c)))) hs cs := by
  intro cs
  induction cs with
  | nil =>
    intro i st st' hs hput
    unfold putChunks at hput
    simp only [Except.ok.injEq, Prod.mk.injEq] at hput
    obtain ⟨rfl, rfl⟩ := hput
    exact ⟨fun _ _ hx => hx, List.Forall₂.nil⟩
  | cons c cs ih =>
    intro i st st' hs hput
    unfold putChunks at hput
    cases hp1 : storePut P st (mkBlock P sk (.content (P.chachaSeal pfk (nonces i) c))) with
    | error e => simp only [hp1] at hput; cases hput
    | ok p =>
      obtain ⟨h1, st1⟩ := p
      cases hp2 : putChunks P sk pfk nonces (i + 1) cs st1 with
      | error e => simp only [hp1, hp2] at hput; cases hput
      | ok q =>
        obtain ⟨st2, hs2⟩ := q
        simp only [hp1, hp2, Except.ok.injEq, Prod.mk.injEq] at hput
        obtain ⟨rfl, rfl⟩ := hput
        obtain ⟨_, hlook1, hpres1, _⟩ := storePut_ok P st _ h1 st1 hp1
        obtain ⟨hpres2, hF⟩ := ih (i + 1) st1 st2 hs2 hp2
        refine ⟨fun h₀ b₀ hb => hpres2 _ _ (hpres1 _ _ hb), ?_⟩
        exact List.Forall₂.cons ⟨nonces i, hn i, hpres2 _ _ hlook1⟩ hF

theorem getChunks_ok (P : Prims) (hS : SigCorrect P) (hA : AeadCorrect P)
    (st : Store) (sk pfk : Bytes) (hs cs : List Bytes)
    (hF : List.Forall₂ (fun h c => ∃ n, n.length = 12 ∧
      storeGet st h = some (mkBlock P sk (.content (P.chachaSeal pfk n c)))) hs cs) :
    getChunks P st pfk hs = .ok cs := by
  induction hF with
  | nil => rfl
  | @cons a b l₁ l₂ hrel hF ih =>
    obtain ⟨n, hn, hlook⟩ := hrel
    unfold getChunks
    rw [storeGetChecked_mkBlock P hS st _ sk _ hlook]
    simp only [mkBlock, hA pfk n b hn, ih]

theorem add_file_ok_elim (P : Prims) (hA : AeadCorrect P) (hS : SigCorrect P)
    (hH : Sha3Len P) (v : Vault) (pfk : Bytes) (nonces : Nat → Bytes)
    (wrapNonce : Bytes) (hn : ∀ j, (nonces j).length = 12)
    (hwn : wrapNonce.length = 12) (fileName : Bytes) (createdAt : Int)
    (content : Bytes) (h : Bytes) (v' : Vault)
    (hrun : add_file P v pfk nonces wrapNonce fileName createdAt content
      = .ok (h, v')) :
    h.length = 32 ∧ get_file P v' h = .ok content := by
  unfold add_file at hrun
  by_cases hsl : fileName.contains slashByte = true
  · rw [if_pos hsl] at hrun; cases hrun
  · rw [if_neg hsl] at hrun
    cases hput : putChunks P v.identityDsaSk pfk nonces 0 (chunkSplit content) v.store with
    | error e => simp only [hput] at hrun; cases hrun
    | ok p =>
      obtain ⟨st1, hs⟩ := p
      cases hmp : storePut P st1 (mkBlock P v.identityDsaSk (.metadata
          { fileName := fileName, plaintextSize := content.length,
            wrappedKey := P.chachaSeal v.masterKey wrapNonce pfk,
            chunkHashes := hs, createdAt := createdAt })) with
      | error e => simp only [hput, hmp] at hrun; cases hrun
      | ok q =>
        obtain ⟨hm, st2⟩ := q
        simp only [hput, hmp, Except.ok.injEq, Prod.mk.injEq] at hrun
        obtain ⟨rfl, rfl⟩ := hrun
        obtain ⟨hpres1, hF⟩ :=
          putChunks_ok P v.identityDsaSk pfk nonces hn (chunkSplit content)
            0 v.store st1 hs hput
        obtain ⟨hhash, hlookM, hpres2, _⟩ := storePut_ok P st1 _ hm st2 hmp
        have hF2 : List.Forall₂ (fun hc c => ∃ n, n.length = 12 ∧
            storeGet st2 hc = some (mkBlock P v.identityDsaSk
              (.content (P.chachaSeal pfk n c)))) hs (chunkSplit content) := by
          refine hF.imp ?_
          intro a b hab
          obtain ⟨n, hn12, hl⟩ := hab
          exact ⟨n, hn12, hpres2 _ _ hl⟩
        constructor
        · rw [hhash]; exact hH _
        · show get_file P { v with store := st2 } hm = .ok content
          unfold get_file
          rw [storeGetChecked_mkBlock P hS st2 hm v.identityDsaSk _ hlookM]
          simp only [mkBlock, hA v.masterKey wrapNonce pfk hwn,
            getChunks_ok P hS hA st2 v.identityDsaSk pfk hs (chunkSplit content) hF2,
            chunkSplit_flatten]
          simp

theorem putChunks_length (P : Prims) (sk pfk : Bytes) (nonces : Nat → Bytes) :
    ∀ (cs : List Bytes) (i : Nat) (st st' : Store) (hs : List Bytes),
    putChunks P sk pfk nonces i cs st = .ok (st', hs) → hs.length = cs.length := by
  intro cs
  induction cs with
  | nil =>
    intro i st st' hs hput
    unfold putChunks at hput
    simp only [Except.ok.injEq, Prod.mk.injEq] at hput
    obtain ⟨rfl, rfl⟩ := hput
    rfl
  | cons c cs ih =>
    intro i st st' hs hput
    unfold putChunks at hput
    cases hp1 : storePut P st (mkBlock P sk (.content (P.chachaSeal pfk (nonces i) c))) with
    | error e => simp only [hp1] at hput; cases hput
    | ok p =>
      obtain ⟨h1, st1⟩ := p
      cases hp2 : putChunks P sk pfk nonces (i + 1) cs st1 with
      | error e => simp only [hp1, hp2] at hput; cases hput
      | ok q =>
        obtain ⟨st2, hs2⟩ := q
        simp only [hp1, hp2, Except.ok.injEq, Prod.mk.injEq] at hput
        obtain ⟨rfl, rfl⟩ := hput
        simp [ih (i + 1) st1 st2 hs2 hp2]

theorem add_file_ok_dissect (P : Prims) (v : Vault) (pfk : Bytes)
    (nonces : Nat → Bytes) (wrapNonce fileName : Bytes) (createdAt : Int)
    (content : Bytes) (h : Bytes) (v' : Vault)
    (hrun : add_file P v pfk nonces wrapNonce fileName createdAt content
      = .ok (h, v')) :
    ∃ st1 hs st2,
      putChunks P v.identityDsaSk pfk nonces 0 (chunkSplit content) v.store
        = .ok (st1, hs) ∧
      storePut P st1 (mkBlock P v.identityDsaSk (.metadata
        { fileName := fileName, plaintextSize := content.length,
          wrappedKey := P.chachaSeal v.masterKey wrapNonce pfk,
          chunkHashes := hs, createdAt := createdAt })) = .ok (h, st2) ∧
      v' = { v with store := st2 } := by
  unfold add_file at hrun
  by_cases hsl : fileName.contains slashByte = true
  · rw [if_pos hsl] at hrun; cases hrun
  · rw [if_neg hsl] at hrun
    cases hput : putChunks P v.identityDsaSk pfk nonces 0 (chunkSplit content) v.store with
    | error e => simp only [hput] at hrun; cases hrun
    | ok p =>
      obtain ⟨st1, hs⟩ := p
      cases hmp : storePut P st1 (mkBlock P v.identityDsaSk (.metadata
          { fileName := fileName, plaintextSize := content.length,
            wrappedKey := P.chachaSeal v.masterKey wrapNonce pfk,
            chunkHashes := hs, createdAt := createdAt })) with
      | error e => simp only [hput, hmp] at hrun; cases hrun
      | ok q =>
        obtain ⟨hm, st2⟩ := q
        simp only [hput, hmp, Except.ok.injEq, Prod.mk.injEq] at hrun
        obtain ⟨rfl, rfl⟩ := hrun
        exact ⟨st1, hs, st2, rfl, hmp, rfl⟩

/-- C1: for every file of size at most 16 MiB, adding it with add_file and
retrieving it through the returned metadata hash reproduces the file byte
for byte, and the returned hash is 32 bytes long. Stated for every
primitive bundle satisfying the interface laws of spec 4.1, every vault,
every csprng draw of the per-file key and nonces, and every successful
add_file run; the empty file is the special case content = []. -/
theorem claim_C1_roundtrip (P : Prims) (hA : AeadCorrect P) (hS : SigCorrect P)
    (hH : Sha3Len P) (v : Vault) (pfk : Bytes) (nonces : Nat → Bytes)
    (wrapNonce : Bytes) (hn : ∀ j, (nonces j).length = 12)
    (hwn : wrapNonce.length = 12) (fileName : Bytes) (createdAt : Int)
    (content : Bytes) (_hsize : content.length ≤ 16 * 1048576)
    (h : Bytes) (v' : Vault)
    (hrun : add_file P v pfk nonces wrapNonce fileName createdAt content
      = .ok (h, v')) :
    h.length = 32 ∧ get_file P v' h = .ok content :=
  add_file_ok_elim P hA hS hH v pfk nonces wrapNonce hn hwn fileName createdAt
    content h v' hrun

set_option maxRecDepth 100000 in
/-- Witness for C1: a concrete two-byte file added to a fresh vault with
the concrete primitive bundle comes back intact from get_file. -/
theorem claim_C1_roundtrip_witness :
    addThenGet miniPrims wVault wKey32 wNonces wNonce12 wName 0 wContent
      = .ok wContent := by
  have hOk : (add_file miniPrims wVault wKey32 wNonces wNonce12 wName 0
      wContent).isOk = true := by decide
  unfold addThenGet
  cases hEq : add_file miniPrims wVault wKey32 wNonces wNonce12 wName 0 wContent with
  | error e => rw [hEq] at hOk; simp [Except.isOk, Except.toBool] at hOk
  | ok p =>
    obtain ⟨h, v'⟩ := p
    exact (claim_C1_roundtrip miniPrims miniPrims_aead miniPrims_sig
      miniPrims_sha3Len wVault wKey32 wNonces wNonce12
      (fun j => by simp [wNonces, wNonce12]) (by simp [wNonce12])
      wName 0 wContent (by decide) h v' hEq).2

/-- C5: add_file splits the plaintext into chunks of at most 1 MiB; the
stored metadata block records exactly one hash per chunk, so its chunk
count is the ceiling of the size over 1 MiB (in particular 5 for a 5 MiB
file), and its plaintext size is the file size; an empty file produces no
chunks, chunk count 0, plaintext size 0, and at most the metadata block
is added to the store. -/
theorem claim_C5_chunking (P : Prims) (v : Vault) (pfk : Bytes)
    (nonces : Nat → Bytes) (wrapNonce fileName : Bytes) (createdAt : Int)
    (content : Bytes) (h : Bytes) (v' : Vault)
    (hrun : add_file P v pfk nonces wrapNonce fileName createdAt content
      = .ok (h, v')) :
    (∀ c ∈ chunkSplit content, c.length ≤ 1048576) ∧
    Option.map (fun m => m.chunkHashes.length) (metaAt v' h)
      = some (numChunks content.length) ∧
    Option.map FileMeta.plaintextSize (metaAt v' h) = some content.length ∧
    numChunks (5 * 1048576) = 5 ∧
    numChunks 0 = 0 ∧
    (content = [] → chunkSplit content = [] ∧
      (v'.store = v.store ∨ ∃ blk, v'.store = (h, blk) :: v.store)) := by
  obtain ⟨st1, hs, st2, hput, hmp, rfl⟩ :=
    add_file_ok_dissect P v pfk nonces wrapNonce fileName createdAt content h v' hrun
  obtain ⟨hhash, hlookM, hpres2, hdisj⟩ := storePut_ok P st1 _ h st2 hmp
  have hlen : hs.length = (chunkSplit content).length :=
    putChunks_length P v.identityDsaSk pfk nonces (chunkSplit content)
      0 v.store st1 hs hput
  have hmeta : metaAt { v with store := st2 } h = some
      { fileName := fileName, plaintextSize := content.length,
        wrappedKey := P.chachaSeal v.masterKey wrapNonce pfk,
        chunkHashes := hs, createdAt := createdAt } := by
    simp [metaAt, hlookM, mkBlock]
  refine ⟨fun c hc => chunkSplit_sizes content c hc, ?_, ?_, ?_, numChunks_zero, ?_⟩
  · rw [hmeta]
    simp [hlen, chunkSplit_count]
  · rw [hmeta]
    rfl
  · norm_num [numChunks, chunkSize]
  · intro hc
    subst hc
    refine ⟨rfl, ?_⟩
    have hempty : putChunks P v.identityDsaSk pfk nonces 0 (chunkSplit ([] : Bytes))
        v.store = .ok (v.store, []) := rfl
    rw [hempty] at hput
    simp only [Except.ok.injEq, Prod.mk.injEq] at hput
    obtain ⟨rfl, rfl⟩ := hput
    rcases hdisj with hl | hr
    · exact Or.inl (by rw [hl])
    · exact Or.inr ⟨_, by rw [hr]⟩

set_option maxRecDepth 100000 in
/-- Witness for C5: a concrete empty-file run of add_file, to which the
chunking theorem applies; in particular the 5 MiB chunk count is 5. -/
theorem claim_C5_chunking_witness :
    (add_file miniPrims wVault wKey32 wNonces wNonce12 wName 0 []).isOk = true
      ∧ numChunks (5 * 1048576) = 5 := by
  have hOk : (add_file miniPrims wVault wKey32 wNonces wNonce12 wName 0
      ([] : Bytes)).isOk = true := by decide
  refine ⟨hOk, ?_⟩
  cases hEq : add_file miniPrims wVault wKey32 wNonces wNonce12 wName 0 ([] : Bytes) with
  | error e => rw [hEq] at hOk; simp [Except.isOk, Except.toBool] at hOk
  | ok p =>
    exact (claim_C5_chunking miniPrims wVault wKey32 wNonces wNonce12 wName 0
      [] p.1 p.2 (by rw [hEq])).2.2.2.1

/-- C2: redeeming any parseable share token at a time now strictly after
its expiry fails with AuthFailed and leaves the vault (hence its block
store) unchanged, and the expiry check of redemption passes exactly when
now is at most expires_at. -/
theorem claim_C2_share_expiry (P : Prims) (v : Vault) (now : Int) (tok : Bytes)
    (t : ShareTok) (hp : parseShareToken tok = some t)
    (hexp : t.expiresAt < now) :
    (redeem_share P v now tok).1 = .error .authFailed ∧
    (redeem_share P v now tok).2 = v ∧
    (expiryOk now t = true ↔ now ≤ t.expiresAt) := by
  have hred : redeem_share P v now tok = (.error .authFailed, v) := by
    unfold redeem_share
    simp only [hp]
    by_cases hv : P.mldsaVerify t.signerPk (sharePreamble t) t.sig = true
    · rw [if_pos hv]
      have hex : expiryOk now t = false := by
        simp only [expiryOk, decide_eq_false_iff_not]
        omega
      rw [hex]
      simp
    · rw [if_neg hv]
  rw [hred]
  refine ⟨rfl, rfl, ?_⟩
  simp [expiryOk]

/-- Witness for C2: a concrete 6453-byte token with valid magic and expiry
time 10, redeemed at time 11, yields AuthFailed and an unchanged vault. -/
theorem claim_C2_share_expiry_witness :
    (redeem_share toyPrims wVault 11 wExpiredToken).1 = .error .authFailed ∧
    (redeem_share toyPrims wVault 11 wExpiredToken).2 = wVault := by
  have hlen : wExpiredToken.length = 6453 := by
    rw [wExpiredToken, List.length_append, List.length_append,
      List.length_replicate]
    decide
  have htake : wExpiredToken.take 4 = zstMagic := by
    rw [wExpiredToken, List.append_assoc]
    exact List.take_left' rfl
  have hp : parseShareToken wExpiredToken = some wExpiredTok := by
    unfold parseShareToken
    rw [if_pos ⟨hlen, htake⟩]
    rfl
  have hdrop4 : wExpiredToken.drop 4 = encodeI64LE 10 ++ List.replicate 6441 0 := by
    rw [wExpiredToken, List.append_assoc]
    exact List.drop_left' rfl
  have hexp : wExpiredTok.expiresAt < 11 := by
    show decodeI64LE ((wExpiredToken.drop 4).take 8) < 11
    rw [hdrop4, List.take_left' (by decide)]
    decide
  obtain ⟨h1, h2, _⟩ :=
    claim_C2_share_expiry toyPrims wVault 11 wExpiredToken wExpiredTok hp hexp
  exact ⟨h1, h2⟩

/-- C3: the numeric codes of the public interface are exactly Ok = 0,
InvalidArg = -1, Alloc = -2, IO = -3, Crypto = -4, InvalidData = -5,
NotFound = -6, Exists = -7, AuthFailed = -8, and the code of every
operation result lies in this set. -/
theorem claim_C3_error_codes :
    ZAULT_OK = 0 ∧ ZAULT_ERR_INVALID_ARG = -1 ∧ ZAULT_ERR_ALLOC = -2 ∧
    ZAULT_ERR_IO = -3 ∧ ZAULT_ERR_CRYPTO = -4 ∧ ZAULT_ERR_INVALID_DATA = -5 ∧
    ZAULT_ERR_NOT_FOUND = -6 ∧ ZAULT_ERR_EXISTS = -7 ∧
    ZAULT_ERR_AUTH_FAILED = -8 ∧
    (∀ e : ZErr, errCode e ∈ allCodes) ∧
    (∀ (α : Type) (r : Except ZErr α), retCode r ∈ allCodes) := by
  refine ⟨rfl, rfl, rfl, rfl, rfl, rfl, rfl, rfl, rfl, ?_, ?_⟩
  · intro e; cases e <;> decide
  · intro α r
    cases r with
    | ok a => simp [retCode, ZAULT_OK, allCodes]
    | error e =>
      cases e <;>
        simp [retCode, errCode, allCodes, ZAULT_ERR_INVALID_ARG,
          ZAULT_ERR_ALLOC, ZAULT_ERR_IO, ZAULT_ERR_CRYPTO,
          ZAULT_ERR_INVALID_DATA, ZAULT_ERR_NOT_FOUND, ZAULT_ERR_EXISTS,
          ZAULT_ERR_AUTH_FAILED]

theorem encodeI64LE_length (i : Int) : (encodeI64LE i).length = 8 := by
  simp [encodeI64LE, encodeU64LE]

theorem unwrapFileKey_len (P : Prims) (v : Vault) (fh pfk : Bytes)
    (hk : unwrapFileKey P v fh = .ok pfk) : pfk.length = 32 := by
  unfold unwrapFileKey at hk
  cases h1 : storeGetChecked P v.store fh with
  | error e => simp only [h1] at hk; cases hk
  | ok blk =>
    cases hb : blk.body with
    | content w => simp only [h1, hb] at hk; cases hk
    | metadata m =>
      cases h2 : P.chachaOpen v.masterKey m.wrappedKey with
      | none => simp only [h1, hb, h2] at hk; cases hk
      | some k =>
        simp only [h1, hb, h2] at hk
        by_cases hl : k.length = 32
        · rw [if_pos hl] at hk
          cases hk
          exact hl
        · rw [if_neg hl] at hk; cases hk

/-- C4: every token produced by create_share is exactly 6453 bytes and is
the concatenation, in order, of the 4-byte magic ZST1, the 8-byte expiry,
the 32-byte file hash, the 1088-byte ML-KEM-768 ciphertext, the 60-byte
AEAD section (12-byte nonce, 16-byte tag, 32-byte ciphertext of the
per-file key), the 1952-byte signer public key, and the 3309-byte
ML-DSA-65 signature over everything before the signer key. -/
theorem claim_C4_token_layout (P : Prims) (hW : SealWire P)
    (v : Vault) (fileHash recipPk : Bytes) (expiresAt : Int)
    (r n : Bytes) (pfk tok : Bytes)
    (hk : unwrapFileKey P v fileHash = .ok pfk)
    (hrun : create_share P v fileHash recipPk expiresAt r n = .ok tok) :
    tok.length = 6453 ∧
    tok = zstMagic ++ encodeI64LE expiresAt ++ fileHash ++
      (P.mlkemEncap recipPk r).1 ++
      P.chachaSeal (P.mlkemEncap recipPk r).2 n pfk ++
      P.mldsaPkOfSk v.identityDsaSk ++
      P.mldsaSign v.identityDsaSk (zstMagic ++ encodeI64LE expiresAt ++
        fileHash ++ (P.mlkemEncap recipPk r).1 ++
        P.chachaSeal (P.mlkemEncap recipPk r).2 n pfk) ∧
    fileHash.length = 32 ∧ n.length = 12 ∧
    ((P.mlkemEncap recipPk r).1).length = 1088 ∧
    (P.chachaSeal (P.mlkemEncap recipPk r).2 n pfk).length = 60 ∧
    (∃ t c, t.length = 16 ∧ c.length = 32 ∧
      P.chachaSeal (P.mlkemEncap recipPk r).2 n pfk = n ++ t ++ c) ∧
    (P.mldsaPkOfSk v.identityDsaSk).length = 1952 ∧
    (P.mldsaSign v.identityDsaSk (zstMagic ++ encodeI64LE expiresAt ++
      fileHash ++ (P.mlkemEncap recipPk r).1 ++
      P.chachaSeal (P.mlkemEncap recipPk r).2 n pfk)).length = 3309 := by
  unfold create_share at hrun
  by_cases h32 : fileHash.length = 32
  case neg => rw [if_pos h32] at hrun; cases hrun
  rw [if_neg (not_not_intro h32)] at hrun
  by_cases h1184 : recipPk.length = 1184
  case neg => rw [if_pos h1184] at hrun; cases hrun
  rw [if_neg (not_not_intro h1184)] at hrun
  by_cases hn12 : n.length = 12
  case neg => rw [if_pos hn12] at hrun; cases hrun
  rw [if_neg (not_not_intro hn12)] at hrun
  simp only [hk] at hrun
  by_cases hct : ((P.mlkemEncap recipPk r).1).length = 1088
  case neg => rw [if_pos hct] at hrun; cases hrun
  rw [if_neg (not_not_intro hct)] at hrun
  by_cases haead : (P.chachaSeal (P.mlkemEncap recipPk r).2 n pfk).length = 60
  case neg => rw [if_pos haead] at hrun; cases hrun
  rw [if_neg (not_not_intro haead)] at hrun
  by_cases hpk : (P.mldsaPkOfSk v.identityDsaSk).length = 1952
  case neg => rw [if_pos hpk] at hrun; cases hrun
  rw [if_neg (not_not_intro hpk)] at hrun
  by_cases hsg : (P.mldsaSign v.identityDsaSk (zstMagic ++ encodeI64LE expiresAt ++
      fileHash ++ (P.mlkemEncap recipPk r).1 ++
      P.chachaSeal (P.mlkemEncap recipPk r).2 n pfk)).length = 3309
  case neg => rw [if_pos hsg] at hrun; cases hrun
  rw [if_neg (not_not_intro hsg)] at hrun
  cases hrun
  refine ⟨?_, rfl, h32, hn12, hct, haead, ?_, hpk, hsg⟩
  · simp only [List.length_append, encodeI64LE_length]
    rw [h32, hct, haead, hpk, hsg]
    decide
  · obtain ⟨t, c, ht, hc, hw⟩ := hW (P.mlkemEncap recipPk r).2 n pfk
    exact ⟨t, c, ht, by rw [hc, unwrapFileKey_len P v fileHash pfk hk], hw⟩

/-- Witness for C4: a concrete create_share run against a vault holding a
metadata block produces a token of exactly 6453 bytes. -/
theorem claim_C4_token_layout_witness :
    (create_share toyPrims wShareVault wFh wRecipPk 99 [5] wNonce12).map
      List.length = .ok 6453 := by
  have hn12 : wNonce12.length = 12 := by simp [wNonce12]
  have hgc : storeGetChecked toyPrims wShareVault.store wFh = .ok wMetaBlock := by
    refine storeGetChecked_mkBlock toyPrims toyPrims_sig _ wFh [1] (.metadata wMeta) ?_
    show storeGet [(wFh, wMetaBlock)] wFh = some (mkBlock toyPrims [1] (.metadata wMeta))
    simp only [storeGet]
    rw [if_pos trivial]
    rfl
  have hopen : toyPrims.chachaOpen [3] (toySeal [3] wNonce12 wKey32)
      = some wKey32 := by
    show toyOpen [3] (toySeal [3] wNonce12 wKey32) = some wKey32
    exact toyOpen_toySeal [3] wNonce12 wKey32 hn12
  have hk : unwrapFileKey toyPrims wShareVault wFh = .ok wKey32 := by
    unfold unwrapFileKey
    simp only [hgc, wMetaBlock, mkBlock]
    have hmk : wShareVault.masterKey = [3] := rfl
    simp only [hmk, wMeta, hopen]
    simp [wKey32]
  have hfh : wFh.length = 32 := by simp [wFh]
  have hrp : wRecipPk.length = 1184 := by simp [wRecipPk]
  have hct : ((toyPrims.mlkemEncap wRecipPk [5]).1).length = 1088 := by
    simp [toyPrims, padTo_length]
  have haead : (toyPrims.chachaSeal (toyPrims.mlkemEncap wRecipPk [5]).2
      wNonce12 wKey32).length = 60 := by
    show (toySeal _ wNonce12 wKey32).length = 60
    rw [toySeal_length _ _ _ hn12]
    simp [wKey32]
  have hpk : (toyPrims.mldsaPkOfSk wShareVault.identityDsaSk).length = 1952 := by
    simp [toyPrims, wShareVault, padTo_length]
  have hsg : ∀ m : Bytes, (toyPrims.mldsaSign wShareVault.identityDsaSk m).length
      = 3309 := by
    intro m; simp [toyPrims, padTo_length]
  have hex : ∃ tok, create_share toyPrims wShareVault wFh wRecipPk 99 [5] wNonce12
      = .ok tok := by
    unfold create_share
    rw [if_neg (not_not_intro hfh), if_neg (not_not_intro hrp),
      if_neg (not_not_intro hn12)]
    simp only [hk]
    rw [if_neg (not_not_intro hct), if_neg (not_not_intro haead),
      if_neg (not_not_intro hpk), if_neg (not_not_intro (hsg _))]
    exact ⟨_, rfl⟩
  obtain ⟨tok, hrun⟩ := hex
  rw [hrun]
  have hlen := (claim_C4_token_layout toyPrims toyPrims_sealWire wShareVault
    wFh wRecipPk 99 [5] wNonce12 wKey32 tok hk hrun).1
  simp [Except.map, hlen]

/-- C6: identity generation from a seed is deterministic. The modelled
from_seed is a function of the primitive bundle and the seed alone; in
particular two invocations under arbitrary, possibly different, ambient
process randomness produce identical identities and identical
serialize_public output. -/
theorem claim_C6_deterministic_identity (P : Prims) (a₁ a₂ : Nat → Bytes)
    (s : Bytes) :
    identity_from_seed P a₁ s = identity_from_seed P a₂ s ∧
    (identity_from_seed P a₁ s).map serialize_public
      = (identity_from_seed P a₂ s).map serialize_public :=
  ⟨rfl, rfl⟩

/-- C7: serialize_public emits the 1952-byte ML-DSA-65 public key followed
by the 1184-byte ML-KEM-768 public key, 3136 bytes in all; each parse
function accepts exactly the 3136-byte inputs and returns the
corresponding slice, so parsing a serialized identity returns the
original public keys. -/
theorem claim_C7_serialize_parse (id : Identity)
    (h1 : id.mldsaPk.length = 1952) (h2 : id.mlkemPk.length = 1184) :
    (serialize_public id).length = 3136 ∧
    parse_public_identity_dsa_pk (serialize_public id) = .ok id.mldsaPk ∧
    parse_public_identity_kem_pk (serialize_public id) = .ok id.mlkemPk ∧
    (∀ s : Bytes, (parse_public_identity_kem_pk s).isOk = true ↔ s.length = 3136) ∧
    (∀ s : Bytes, (parse_public_identity_dsa_pk s).isOk = true ↔ s.length = 3136) := by
  have hlen : (serialize_public id).length = 3136 := by
    simp [serialize_public, h1, h2]
  refine ⟨hlen, ?_, ?_, ?_, ?_⟩
  · unfold parse_public_identity_dsa_pk
    rw [if_pos hlen]
    unfold serialize_public
    rw [List.take_left' h1]
  · unfold parse_public_identity_kem_pk
    rw [if_pos hlen]
    unfold serialize_public
    rw [List.drop_left' h1]
  · intro s
    unfold parse_public_identity_kem_pk
    by_cases hs : s.length = 3136
    · rw [if_pos hs]; simp [Except.isOk, Except.toBool, hs]
    · rw [if_neg hs]; simp [Except.isOk, Except.toBool, hs]
  · intro s
    unfold parse_public_identity_dsa_pk
    by_cases hs : s.length = 3136
    · rw [if_pos hs]; simp [Except.isOk, Except.toBool, hs]
    · rw [if_neg hs]; simp [Except.isOk, Except.toBool, hs]

/-- Witness for C7: a concrete identity with full-length public keys
serializes to 3136 bytes and parses back to its KEM public key. -/
theorem claim_C7_serialize_parse_witness :
    (serialize_public wSerIdentity).length = 3136 ∧
    parse_public_identity_kem_pk (serialize_public wSerIdentity)
      = .ok wSerIdentity.mlkemPk := by
  obtain ⟨ha, _, hc, _, _⟩ := claim_C7_serialize_parse wSerIdentity
    (by simp [wSerIdentity]) (by simp [wSerIdentity])
  exact ⟨ha, hc⟩

/-- C9: destroying a NULL identity handle or a NULL vault handle is a safe
no-op: the call returns (the modelled destroy is total) and the world of
live handles is unchanged. -/
theorem claim_C9_null_destroy (w : CWorld) :
    zault_identity_destroy none w = w ∧ zault_vault_destroy none w = w :=
  ⟨rfl, rfl⟩

/-- C10: encrypt_message accepts an absent (NULL) sender identity: for
every plaintext and every recipient whose KEM keypair matches, anonymous
encryption succeeds, the ciphertext is the 1088-byte KEM ciphertext
followed by the sealed message and has length plaintext length + 1116,
and decrypt_message with the recipient identity recovers the plaintext. -/
theorem claim_C10_anonymous_message (P : Prims) (hA : AeadCorrect P)
    (hL : SealLen P) (hK : KemCorrect P) (hC : KemCtLen P)
    (recipient : Identity)
    (hpk : recipient.mlkemPk = P.mlkemPkOfSk recipient.mlkemSk)
    (hplen : recipient.mlkemPk.length = 1184)
    (pt r n : Bytes) (hn : n.length = 12) :
    encrypt_message P none recipient.mlkemPk pt r n
      = .ok ((P.mlkemEncap recipient.mlkemPk r).1 ++
          P.chachaSeal (P.mlkemEncap recipient.mlkemPk r).2 n pt) ∧
    ((P.mlkemEncap recipient.mlkemPk r).1 ++
      P.chachaSeal (P.mlkemEncap recipient.mlkemPk r).2 n pt).length
      = pt.length + 1116 ∧
    decrypt_message P recipient ((P.mlkemEncap recipient.mlkemPk r).1 ++
      P.chachaSeal (P.mlkemEncap recipient.mlkemPk r).2 n pt) = .ok pt := by
  have hct := hC recipient.mlkemPk r
  have hslen := hL (P.mlkemEncap recipient.mlkemPk r).2 n pt hn
  refine ⟨?_, ?_, ?_⟩
  · unfold encrypt_message
    rw [if_neg (not_not_intro hplen), if_neg (not_not_intro hct)]
  · simp only [List.length_append, hct, hslen]
    omega
  · unfold decrypt_message
    rw [if_neg (by simp only [List.length_append, hct, hslen]; omega)]
    rw [List.take_left' hct, List.drop_left' hct]
    rw [hpk, hK recipient.mlkemSk r]
    rw [hA _ n pt hn]

/-- Witness for C10: anonymous encryption of a two-byte message to a
concrete recipient produces a ciphertext of 1118 bytes. -/
theorem claim_C10_anonymous_message_witness :
    (encrypt_message toyPrims none wRecipient.mlkemPk [7, 8] [4] wNonce12).map
      List.length = .ok 1118 := by
  obtain ⟨h1, h2, _⟩ := claim_C10_anonymous_message toyPrims toyPrims_aead
    toyPrims_sealLen toyPrims_kem toyPrims_kemCtLen wRecipient rfl
    (by simp [wRecipient, padTo_length]) [7, 8] [4] wNonce12 (by simp [wNonce12])
  rw [h1]
  simp only [Except.map]
  rw [h2]
  rfl

/-- Counterexample for C8: the claim that every output-buffer operation of
the interface follows the query-then-fill convention is false on the
header as written: zault_sign takes the output buffer signature_out but
has no length-out parameter through which a required size could be
returned (src/include/zault.h lines 503-509). -/
theorem claim_C8_counterexample :
    (⟨"zault_sign", ["signature_out"], []⟩ : CFun) ∈ zaultApi ∧
    (⟨"zault_sign", ["signature_out"], []⟩ : CFun).outBufferParams ≠ [] ∧
    (⟨"zault_sign", ["signature_out"], []⟩ : CFun).lenOutParams = [] ∧
    ¬ (∀ f ∈ zaultApi, f.outBufferParams ≠ [] → f.lenOutParams ≠ []) := by
  refine ⟨by decide, by decide, rfl, ?_⟩
  intro hall
  exact hall ⟨"zault_sign", ["signature_out"], []⟩ (by decide) (by decide) rfl

/-- C8 as amended: an output-buffer operation of the interface has a
length-out parameter, and can therefore follow the query-then-fill
convention, exactly when it is one of create_share, encrypt_message,
decrypt_message, chacha20_encrypt, chacha20_decrypt; the remaining
output-buffer operations have fixed-size outputs and no length-out
parameter. -/
theorem claim_C8_query_then_fill (f : CFun) (hf : f ∈ zaultApi) :
    (f.outBufferParams ≠ [] ∧ f.lenOutParams ≠ []) ↔ f.name ∈ queryFillNames := by
  revert f
  decide

/-- Witness for the amended C8: create_share has both an output buffer and
a length-out parameter, and is in the query-then-fill set. -/
theorem claim_C8_query_then_fill_witness :
    ((⟨"zault_vault_create_share", ["token_out"], ["token_len_out"]⟩ : CFun).outBufferParams
        ≠ [] ∧
      (⟨"zault_vault_create_share", ["token_out"], ["token_len_out"]⟩ : CFun).lenOutParams
        ≠ []) ↔
    (⟨"zault_vault_create_share", ["token_out"], ["token_len_out"]⟩ : CFun).name
      ∈ queryFillNames :=
  claim_C8_query_then_fill ⟨"zault_vault_create_share", ["token_out"], ["token_len_out"]⟩
    (by decide)

end Zault
